import Mathlib

/-!
Verification development for the shop-network reduction program (src/main.cpp).

The C++ program builds an undirected multigraph of "shops" connected by
"roads" and then computes a reduction value.  Nodes are heap-allocated
`thomas::shop` objects addressed by raw pointers; the store
`thomas::network::shops` is a `std::map` from identifier to pointer.  We model
pointer identity by heap addresses (allocation order indices into a `heap`
list), and the ordered map as an association list kept sorted in ascending
key order (the iteration order of `std::map`).
-/

namespace Thomas

/-- A node object (`thomas::shop`): its `identifier` field and its
`connected_shops` vector, modelled as the list of heap addresses of the
connected shops, in push order. -/
structure Shop where
  identifier : Nat
  connected : List Nat
deriving DecidableEq

/-- The program state: `heap` holds every `shop` object ever allocated with
`new` (the address of an object is its index, in allocation order), and
`shops` is the `std::map<uint64_t, shop *>` of `thomas::network`, modelled
as an association list of (identifier, address) pairs sorted by key in
ascending order, matching the iteration order of `std::map`. -/
structure NetworkState where
  heap : List Shop
  shops : List (Nat × Nat)
deriving DecidableEq

/-- The freshly constructed `thomas::network`: no allocations, empty map. -/
def initNetwork : NetworkState := ⟨[], []⟩

/-- Dereference a heap address.  Program traces only dereference addresses of
allocated objects; the default value is never reached on those traces. -/
def heapAt (st : NetworkState) (a : Nat) : Shop :=
  st.heap.getD a ⟨0, []⟩

/-- `shop->get_connected_shops().size()`: the neighbor-sequence length of the
object at address `a`. -/
def degree (st : NetworkState) (a : Nat) : Nat :=
  (heapAt st a).connected.length

/-- Association-list lookup, modelling `std::map::at` (line 70); `none`
models the thrown `std::out_of_range`. -/
def mapLookup : List (Nat × Nat) → Nat → Option Nat
  | [], _ => none
  | (k, v) :: t, k' => if k = k' then some v else mapLookup t k'

/-- Sorted association-list insertion modelling `std::map::insert`
(line 74): the pair is inserted at its key position, and an existing key is
left untouched (insert does not overwrite). -/
def mapInsert : List (Nat × Nat) → Nat → Nat → List (Nat × Nat)
  | [], k, v => [(k, v)]
  | (k', v') :: t, k, v =>
    if k < k' then (k, v) :: (k', v') :: t
    else if k = k' then (k', v') :: t
    else (k', v') :: mapInsert t k v

/-- `thomas::network::shop_at` (lines 69-71): map lookup by identifier;
`none` models the `std::out_of_range` exception. -/
def shop_at (st : NetworkState) (i : Nat) : Option Nat :=
  mapLookup st.shops i

/-- `thomas::network::register_shop` (lines 73-75): insert the pair
(identifier of the object, its address) into the map. -/
def register_shop (st : NetworkState) (a : Nat) : NetworkState :=
  { st with shops := mapInsert st.shops (heapAt st a).identifier a }

/-- Replace the element at index `i` by `f` of it (no-op out of range). -/
def modifyAt : List Shop → Nat → (Shop → Shop) → List Shop
  | [], _, _ => []
  | x :: t, 0, f => f x :: t
  | x :: t, n + 1, f => x :: modifyAt t n f

/-- `target->get_connected_shops().push_back(value)`: append the address
`v` to the neighbor sequence of the object at address `t`. -/
def pushConnection (st : NetworkState) (t v : Nat) : NetworkState :=
  { st with heap := modifyAt st.heap t (fun s => { s with connected := s.connected ++ [v] }) }

/-- The address that the next `new thomas::shop(...)` receives. -/
def allocAddr (st : NetworkState) : Nat := st.heap.length

/-- `new thomas::shop(ident)`: allocate a shop object with an empty
neighbor sequence. -/
def allocHeap (st : NetworkState) (ident : Nat) : NetworkState :=
  { st with heap := st.heap ++ [{ identifier := ident, connected := [] }] }

/-- The edge-insertion try/catch block of `main` (src/main.cpp lines
240-280), for one non-skipped input line `shop_id road_to`.  The outer
lookup of `shop_id` and the inner lookup of `road_to` each either find the
node or allocate it; note that in the outer catch branch the freshly
allocated source node is registered only at the end (line 279), after the
inner lookup has already run — exactly as in the source. -/
def addEdge (st : NetworkState) (shop_id road_to : Nat) : NetworkState :=
  match shop_at st shop_id with
  | some s =>
    match shop_at st road_to with
    | some d =>
      pushConnection (pushConnection st d s) s d
    | none =>
      let nd := allocAddr st
      let st1 := allocHeap st road_to
      register_shop (pushConnection (pushConnection st1 nd s) s nd) nd
  | none =>
    let ns := allocAddr st
    let st1 := allocHeap st shop_id
    match shop_at st1 road_to with
    | some d =>
      register_shop (pushConnection (pushConnection st1 d ns) ns d) ns
    | none =>
      let nd := allocAddr st1
      let st2 := allocHeap st1 road_to
      register_shop (register_shop (pushConnection (pushConnection st2 nd ns) ns nd) nd) ns

/-- One iteration of the edge loop of `main` (lines 227-281) for an already
parsed line: the range check on `shop_id` (lines 235-238) skips the line
with a warning, otherwise the edge is inserted. -/
def processLine (st : NetworkState) (shop_id road_to : Nat) : NetworkState :=
  if shop_id < 1 ∨ 1000 < shop_id then st else addEdge st shop_id road_to

/-- The whole edge loop over a list of parsed lines. -/
def processLines (st : NetworkState) (lines : List (Nat × Nat)) : NetworkState :=
  lines.foldl (fun acc line => processLine acc line.1 line.2) st

/-- `thomas::network::number_of_connections` (lines 77-90): count one for
every entry of every registered neighbor sequence, i.e. sum the
neighbor-sequence lengths over the map. -/
def number_of_connections (st : NetworkState) : Nat :=
  st.shops.foldl (fun counter p => counter + degree st p.2) 0

/-- The header validation of `main` (lines 215-223): `num_shops` must lie in
[2,1000] and `num_roads` in [1,1000]; otherwise the process terminates. -/
def checkHeader (num_shops num_roads : Nat) : Bool :=
  !(decide (num_shops < 2) || decide (1000 < num_shops)) &&
    !(decide (num_roads < 1) || decide (1000 < num_roads))

/-- Insert one element into a list sorted descending by `key`, placing it
before the first element of strictly smaller key — the comparator of the
`std::sort` calls (lines 111-115 and 151-156) is strict greater-than on the
key. -/
def insertDesc (key : α → Nat) (x : α) : List α → List α
  | [] => [x]
  | y :: ys => if key y < key x then x :: y :: ys else y :: insertDesc key x ys

/-- Sort a list descending by `key`.  `std::sort` leaves the order of
tied elements unspecified; the reduction result depends only on the
multiset of elements and on the maximal key, both of which every
comparator-sorted output shares, so this deterministic sort is a faithful
model of lines 111-115 and 151-156. -/
def sortDesc (key : α → Nat) : List α → List α
  | [] => []
  | x :: xs => insertDesc key x (sortDesc key xs)

/-- Maximum of `key` over a list (0 on the empty list). -/
def maxKey (key : α → Nat) (l : List α) : Nat :=
  l.foldr (fun a m => max (key a) m) 0

/-- The impact loop body (lines 136-147): walk the neighbor sequence of the
object at `a` and add the degree of every neighbor occurrence whose address
is not found in `core` (`std::find` on `shop *` values compares pointers,
i.e. addresses). -/
def impactOf (st : NetworkState) (core : List Nat) (a : Nat) : Nat :=
  (heapAt st a).connected.foldl
    (fun acc w => if w ∈ core then acc else acc + degree st w) 0

/-- The `remove_if`/`erase` on `linear_shops` (lines 122-126): keep exactly
the elements whose degree is not below the threshold. -/
def coreFrom (st : NetworkState) (sorted : List Nat) (threshold : Nat) : List Nat :=
  sorted.filter (fun a => decide (¬ degree st a < threshold))

/-- The impact-collection `for_each` (lines 132-148): one impact entry per
core element, in order. -/
def impactsFrom (st : NetworkState) (core : List Nat) : List Nat :=
  core.map (fun a => impactOf st core a)

/-- The `remove_if`/`erase` on `impacts` (lines 161-165): keep exactly the
entries whose impact is not below the required impact. -/
def winnersFrom (sortedImpacts : List Nat) (required : Nat) : List Nat :=
  sortedImpacts.filter (fun i => decide (¬ i < required))

/-- The tail of `reduce` after the core set is known: build the impacts,
sort them descending, read `impacts.front()` as the required impact
(`none` models the undefined `front()` on an empty vector), filter, and
apply the final size check of lines 167-172. -/
def reduceFrom (st : NetworkState) (sorted : List Nat) (threshold : Nat) : Option Nat :=
  match sortDesc (fun i => i) (impactsFrom st (coreFrom st sorted threshold)) with
  | [] => none
  | i0 :: irest =>
    if (winnersFrom (i0 :: irest) i0).length < 2 then some 0
    else some (winnersFrom (i0 :: irest) i0).length

/-- The `linear_shops` vector right after the copying `for_each` (lines
99-108): the mapped values in map iteration order (ascending key). -/
def linearShops (st : NetworkState) : List Nat :=
  st.shops.map (fun p => p.2)

/-- `thomas::network::reduce` (lines 98-173).  The value of
`linear_shops.front()` after the descending sort is the degree threshold;
`none` models the undefined behaviour of `front()` on an empty vector. -/
def reduce (st : NetworkState) : Option Nat :=
  match sortDesc (degree st) (linearShops st) with
  | [] => none
  | l0 :: rest => reduceFrom st (l0 :: rest) (degree st l0)

/-- `reduce` as a state transformer: the member function reads the map and
the neighbor sequences but writes only the function-local vectors
`linear_shops` and `impacts`, so the store passes through unchanged. -/
def reduceS (st : NetworkState) : Option Nat × NetworkState :=
  (reduce st, st)

/-- The whole program on an already-parsed input: header check (fatal
`none` on failure), then the edge loop over at most `num_roads` lines, then
the reduction (src/main.cpp line 286). -/
def runProgram (num_shops num_roads : Nat) (lines : List (Nat × Nat)) :
    Option (Option Nat) :=
  if checkHeader num_shops num_roads then
    some (reduce (processLines initNetwork (lines.take num_roads)))
  else none

/-- Reference algorithm, step 1 of spec section 4.2: `D`, the maximum degree
over all stored nodes. -/
def specDegreeMax (st : NetworkState) : Nat :=
  maxKey (degree st) (linearShops st)

/-- Reference algorithm, step 2: `Core`, the stored nodes whose degree
equals `D`. -/
def specCore (st : NetworkState) : List Nat :=
  (linearShops st).filter (fun a => decide (degree st a = specDegreeMax st))

/-- Reference algorithm, step 3: `impact(v)`, the sum over every neighbor
occurrence `w` of `v` (with multiplicity) whose node identity is not in
`Core` of the degree of `w`. -/
def specImpact (st : NetworkState) (a : Nat) : Nat :=
  ((heapAt st a).connected.map (fun w => if w ∈ specCore st then 0 else degree st w)).sum

/-- Reference algorithm, step 4: `I`, the maximum impact over `Core`. -/
def specImpactMax (st : NetworkState) : Nat :=
  maxKey (specImpact st) (specCore st)

/-- Reference algorithm, step 5: `Winners`, the core nodes whose impact
equals `I`. -/
def specWinners (st : NetworkState) : List Nat :=
  (specCore st).filter (fun a => decide (specImpact st a = specImpactMax st))

/-- Reference algorithm, step 6: the result is 0 when fewer than two
winners remain, and the number of winners otherwise. -/
def specReduce (st : NetworkState) : Nat :=
  if (specWinners st).length < 2 then 0 else (specWinners st).length

/-- Strict ascending order of the keys of an association list — the
invariant of `std::map`. -/
def sortedKeys : List (Nat × Nat) → Bool
  | [] => true
  | [_] => true
  | p :: q :: t => decide (p.1 < q.1) && sortedKeys (q :: t)

/-! ### Helper lemmas about the descending sort and `maxKey` -/

theorem maxKey_nil (key : α → Nat) : maxKey key ([] : List α) = 0 := rfl

theorem maxKey_cons (key : α → Nat) (a : α) (l : List α) :
    maxKey key (a :: l) = max (key a) (maxKey key l) := rfl

theorem insertDesc_perm (key : α → Nat) (x : α) :
    ∀ l : List α, (insertDesc key x l).Perm (x :: l) := by
  intro l
  induction l with
  | nil => simp [insertDesc]
  | cons y ys ih =>
    simp only [insertDesc]
    split
    · exact List.Perm.refl _
    · exact (ih.cons y).trans (List.Perm.swap x y ys)

theorem sortDesc_perm (key : α → Nat) : ∀ l : List α, (sortDesc key l).Perm l := by
  intro l
  induction l with
  | nil => exact List.Perm.refl _
  | cons x xs ih =>
    simp only [sortDesc]
    exact (insertDesc_perm key x (sortDesc key xs)).trans (ih.cons x)

theorem sortDesc_eq_nil (key : α → Nat) {l : List α}
    (h : sortDesc key l = []) : l = [] := by
  have hp := sortDesc_perm key l
  rw [h] at hp
  exact hp.symm.eq_nil

theorem sortDesc_head_max (key : α → Nat) :
    ∀ (l : List α) (x : α) (t : List α), sortDesc key l = x :: t → key x = maxKey key l := by
  intro l
  induction l with
  | nil => intro x t h; simp [sortDesc] at h
  | cons a as ih =>
    intro x t h
    simp only [sortDesc] at h
    cases hs : sortDesc key as with
    | nil =>
      have has : as = [] := sortDesc_eq_nil key hs
      rw [hs] at h
      simp only [insertDesc] at h
      injection h with h1 _
      subst h1 has
      rw [maxKey_cons, maxKey_nil]
      omega
    | cons y ys =>
      rw [hs] at h
      have hy : key y = maxKey key as := ih y ys hs
      simp only [insertDesc] at h
      split at h
      · injection h with h1 _
        subst h1
        rw [maxKey_cons, ← hy]
        omega
      · injection h with h1 _
        subst h1
        rw [maxKey_cons, ← hy]
        omega

theorem maxKey_perm (key : α → Nat) {l l' : List α} (h : l.Perm l') :
    maxKey key l = maxKey key l' := by
  induction h with
  | nil => rfl
  | cons x _ ih => rw [maxKey_cons, maxKey_cons, ih]
  | swap x y l => rw [maxKey_cons, maxKey_cons, maxKey_cons, maxKey_cons]; omega
  | trans _ _ ih1 ih2 => rw [ih1, ih2]

theorem maxKey_le (key : α → Nat) {a : α} :
    ∀ {l : List α}, a ∈ l → key a ≤ maxKey key l := by
  intro l
  induction l with
  | nil => intro h; cases h
  | cons x xs ih =>
    intro h
    rw [maxKey_cons]
    cases h with
    | head => omega
    | tail _ hm => have := ih hm; omega

theorem maxKey_attained (key : α → Nat) :
    ∀ l : List α, l ≠ [] → ∃ a, a ∈ l ∧ maxKey key l = key a := by
  intro l
  induction l with
  | nil => intro h; exact absurd rfl h
  | cons x xs ih =>
    intro _
    by_cases hxs : xs = []
    · subst hxs
      refine ⟨x, List.mem_cons_self x _, ?_⟩
      rw [maxKey_cons, maxKey_nil]
      omega
    · obtain ⟨a, ha, hv⟩ := ih hxs
      rcases Nat.le_total (key a) (key x) with hle | hle
      · refine ⟨x, List.mem_cons_self x _, ?_⟩
        rw [maxKey_cons, hv]
        omega
      · refine ⟨a, List.mem_cons_of_mem x ha, ?_⟩
        rw [maxKey_cons, hv]
        omega

theorem maxKey_map (f : α → Nat) :
    ∀ l : List α, maxKey (fun i => i) (l.map f) = maxKey f l := by
  intro l
  induction l with
  | nil => rfl
  | cons x xs ih => rw [List.map_cons, maxKey_cons, maxKey_cons, ih]

theorem length_filter_map_key (p : Nat → Bool) (f : α → Nat) :
    ∀ l : List α, ((l.map f).filter p).length = (l.filter (fun a => p (f a))).length := by
  intro l
  induction l with
  | nil => rfl
  | cons x xs ih =>
    simp only [List.map_cons, List.filter_cons]
    cases p (f x) <;> simp [ih]

/-! ### Helper lemmas about the impact computation -/

theorem foldl_impact (st : NetworkState) (core : List Nat) :
    ∀ (ws : List Nat) (acc : Nat),
      ws.foldl (fun acc w => if w ∈ core then acc else acc + degree st w) acc
        = acc + (ws.map (fun w => if w ∈ core then 0 else degree st w)).sum := by
  intro ws
  induction ws with
  | nil => intro acc; simp
  | cons w ws ih =>
    intro acc
    simp only [List.foldl_cons, List.map_cons, List.sum_cons]
    rw [ih]
    by_cases h : w ∈ core
    · simp [h]
    · simp only [h, if_false]
      omega

theorem impactOf_eq_sum (st : NetworkState) (core : List Nat) (a : Nat) :
    impactOf st core a
      = ((heapAt st a).connected.map (fun w => if w ∈ core then 0 else degree st w)).sum := by
  rw [impactOf, foldl_impact]
  omega

theorem impactOf_congr (st : NetworkState) {c₁ c₂ : List Nat}
    (h : ∀ w : Nat, w ∈ c₁ ↔ w ∈ c₂) (a : Nat) :
    impactOf st c₁ a = impactOf st c₂ a := by
  have hfun : (fun w : Nat => if w ∈ c₁ then 0 else degree st w)
      = (fun w : Nat => if w ∈ c₂ then 0 else degree st w) :=
    funext fun w => if_congr (h w) rfl rfl
  rw [impactOf_eq_sum, impactOf_eq_sum, hfun]

/-! ### The reduction agrees with the reference algorithm of the spec -/

theorem specCore_ne_nil {st : NetworkState} (h : linearShops st ≠ []) :
    specCore st ≠ [] := by
  obtain ⟨a, ha, hv⟩ := maxKey_attained (degree st) (linearShops st) h
  have hmem : a ∈ specCore st := by
    rw [specCore, List.mem_filter]
    exact ⟨ha, by simp only [decide_eq_true_eq]; exact hv.symm⟩
  intro hnil
  rw [hnil] at hmem
  cases hmem

theorem reduce_eq_specReduce {st : NetworkState} (h : st.shops ≠ []) :
    reduce st = some (specReduce st) := by
  have hlin : linearShops st ≠ [] := by
    simp only [linearShops, ne_eq, List.map_eq_nil_iff]
    exact h
  cases hs : sortDesc (degree st) (linearShops st) with
  | nil => exact absurd (sortDesc_eq_nil _ hs) hlin
  | cons l0 rest =>
    have hred : reduce st = reduceFrom st (l0 :: rest) (degree st l0) := by
      unfold reduce
      rw [hs]
    have hD : degree st l0 = specDegreeMax st := sortDesc_head_max _ _ _ _ hs
    -- the filtered sorted list is a permutation of the spec core
    have h1 : (l0 :: rest).Perm (linearShops st) := by
      rw [← hs]
      exact sortDesc_perm (degree st) (linearShops st)
    have h2 := h1.filter (fun a => decide (¬ degree st a < degree st l0))
    have h3 : (linearShops st).filter (fun a => decide (¬ degree st a < degree st l0))
        = specCore st := by
      rw [specCore]
      apply List.filter_congr
      intro a ha
      have hle : degree st a ≤ specDegreeMax st := maxKey_le (degree st) ha
      rw [decide_eq_decide, hD]
      omega
    rw [h3] at h2
    have hperm : (coreFrom st (l0 :: rest) (degree st l0)).Perm (specCore st) := h2
    have hmem : ∀ w : Nat, (w ∈ coreFrom st (l0 :: rest) (degree st l0)) ↔ w ∈ specCore st :=
      fun w => hperm.mem_iff
    -- the impact list is a permutation of the spec impacts
    have himp : (fun a => impactOf st (coreFrom st (l0 :: rest) (degree st l0)) a)
        = specImpact st := by
      funext a
      rw [impactOf_congr st hmem a, impactOf_eq_sum]
      rfl
    have hperm2 : (impactsFrom st (coreFrom st (l0 :: rest) (degree st l0))).Perm
        ((specCore st).map (specImpact st)) := by
      rw [impactsFrom, himp]
      exact hperm.map (specImpact st)
    rw [hred]
    cases hsi : sortDesc (fun i => i)
        (impactsFrom st (coreFrom st (l0 :: rest) (degree st l0))) with
    | nil =>
      exfalso
      have hnil := sortDesc_eq_nil _ hsi
      rw [hnil] at hperm2
      have := hperm2.symm.eq_nil
      rw [List.map_eq_nil_iff] at this
      exact specCore_ne_nil hlin this
    | cons i0 irest =>
      have hI : i0 = specImpactMax st := by
        have := sortDesc_head_max (fun i => i) _ _ _ hsi
        rw [maxKey_perm (fun i => i) hperm2, maxKey_map] at this
        exact this
      have hpermI : (i0 :: irest).Perm ((specCore st).map (specImpact st)) := by
        rw [← hsi]
        exact (sortDesc_perm _ _).trans hperm2
      have hw : (winnersFrom (i0 :: irest) i0).length = (specWinners st).length := by
        rw [winnersFrom]
        have hf := hpermI.filter (fun i => decide (¬ i < i0))
        rw [hf.length_eq]
        have hcong : ((specCore st).map (specImpact st)).filter (fun i => decide (¬ i < i0))
            = ((specCore st).map (specImpact st)).filter
                (fun i => decide (i = specImpactMax st)) := by
          apply List.filter_congr
          intro i hi
          have hle : i ≤ specImpactMax st := by
            have := maxKey_le (fun i => i) hi
            rw [maxKey_map] at this
            exact this
          rw [decide_eq_decide, hI]
          omega
        rw [hcong, length_filter_map_key]
        rfl
      rw [reduceFrom, hsi]
      change (if (winnersFrom (i0 :: irest) i0).length < 2 then some 0
          else some (winnersFrom (i0 :: irest) i0).length) = some (specReduce st)
      rw [hw, specReduce]
      by_cases hc : (specWinners st).length < 2 <;> simp [hc]

/-! ### Helper lemmas about the map and the heap -/

theorem mapLookup_mapInsert_isSome (k v : Nat) :
    ∀ l : List (Nat × Nat), mapLookup (mapInsert l k v) k ≠ none := by
  intro l
  induction l with
  | nil => simp [mapInsert, mapLookup]
  | cons p t ih =>
    obtain ⟨k', v'⟩ := p
    simp only [mapInsert]
    by_cases h1 : k < k'
    · simp [h1, mapLookup]
    · by_cases h2 : k = k'
      · simp [h1, h2, mapLookup]
      · have hne : ¬ k' = k := fun he => h2 he.symm
        simp [h1, h2, mapLookup, hne, ih]

theorem mapLookup_mapInsert_mono (k v k' : Nat) :
    ∀ l : List (Nat × Nat), mapLookup l k' ≠ none →
      mapLookup (mapInsert l k v) k' ≠ none := by
  intro l
  induction l with
  | nil => intro h; exact absurd rfl h
  | cons p t ih =>
    obtain ⟨a, b⟩ := p
    intro h
    simp only [mapInsert]
    by_cases h1 : k < a
    · simp only [if_pos h1, mapLookup]
      by_cases h3 : k = k'
      · simp [h3]
      · simp only [if_neg h3]
        exact h
    · by_cases h2 : k = a
      · simp only [if_neg h1, if_pos h2]
        exact h
      · simp only [if_neg h1, if_neg h2, mapLookup]
        by_cases h3 : a = k'
        · simp [h3]
        · simp only [if_neg h3]
          simp only [mapLookup, if_neg h3] at h
          exact ih h

theorem sortedKeys_lookup_lt :
    ∀ (t : List (Nat × Nat)) (p : Nat × Nat) (k b : Nat),
      sortedKeys (p :: t) = true → mapLookup t k = some b → p.1 < k := by
  intro t
  induction t with
  | nil => intro p k b _ h; simp [mapLookup] at h
  | cons q t' ih =>
    intro p k b hs h
    simp only [sortedKeys, Bool.and_eq_true, decide_eq_true_eq] at hs
    simp only [mapLookup] at h
    by_cases hqk : q.1 = k
    · omega
    · rw [if_neg hqk] at h
      have := ih q k b (by
        cases t' with
        | nil => rfl
        | cons r t'' =>
          simp only [sortedKeys, Bool.and_eq_true, decide_eq_true_eq] at hs ⊢
          exact ⟨hs.2.1, hs.2.2⟩) h
      omega

theorem mapInsert_of_lookup_some (k v b : Nat) :
    ∀ l : List (Nat × Nat), sortedKeys l = true → mapLookup l k = some b →
      mapInsert l k v = l := by
  intro l
  induction l with
  | nil => intro _ h; simp [mapLookup] at h
  | cons p t ih =>
    obtain ⟨k', v'⟩ := p
    intro hs h
    simp only [mapLookup] at h
    by_cases he : k' = k
    · simp [mapInsert, he]
    · rw [if_neg he] at h
      have hlt : k' < k := sortedKeys_lookup_lt t (k', v') k b hs h
      have htail : sortedKeys t = true := by
        cases t with
        | nil => rfl
        | cons q t' =>
          simp only [sortedKeys, Bool.and_eq_true, decide_eq_true_eq] at hs
          exact hs.2
      simp only [mapInsert, if_neg (by omega : ¬ k < k'), if_neg (by omega : ¬ k = k')]
      rw [ih htail h]

theorem pushConnection_shops (st : NetworkState) (t v : Nat) :
    (pushConnection st t v).shops = st.shops := rfl

theorem allocHeap_shops (st : NetworkState) (i : Nat) :
    (allocHeap st i).shops = st.shops := rfl

theorem modifyAt_identifier (v : Nat) :
    ∀ (l : List Shop) (i a : Nat),
      ((modifyAt l i (fun s => { s with connected := s.connected ++ [v] })).getD a
          ⟨0, []⟩).identifier
        = (l.getD a ⟨0, []⟩).identifier := by
  intro l
  induction l with
  | nil => intro i a; rfl
  | cons x t ih =>
    intro i a
    cases i with
    | zero =>
      cases a with
      | zero => rfl
      | succ a' => rfl
    | succ i' =>
      cases a with
      | zero => rfl
      | succ a' =>
        simp only [modifyAt, List.getD_cons_succ]
        exact ih i' a'

theorem heapAt_pushConnection_identifier (st : NetworkState) (t v a : Nat) :
    (heapAt (pushConnection st t v) a).identifier = (heapAt st a).identifier := by
  simp only [heapAt, pushConnection]
  exact modifyAt_identifier v st.heap t a

theorem getD_append_self :
    ∀ (l : List Shop) (x : Shop), (l ++ [x]).getD l.length ⟨0, []⟩ = x := by
  intro l
  induction l with
  | nil => intro x; rfl
  | cons y t ih =>
    intro x
    simp only [List.cons_append, List.length_cons, List.getD_cons_succ]
    exact ih x

theorem heapAt_allocHeap_self (st : NetworkState) (i : Nat) :
    heapAt (allocHeap st i) (allocAddr st) = ⟨i, []⟩ := by
  simp only [heapAt, allocHeap, allocAddr]
  exact getD_append_self st.heap ⟨i, []⟩

/-! ### Claim theorems -/

/-- Claim C1: for every finalized (non-empty) graph store, `reduce` returns
the value of the reference algorithm of the spec: with `D` the maximum
neighbor-sequence length over the stored nodes, `Core` the stored nodes of
degree `D`, `impact(v)` the sum of the degrees of the neighbor occurrences
of `v` whose identity is outside `Core`, and `I` the maximal impact, the
result is the number of `Core` nodes of impact `I` when that number is at
least 2, and 0 otherwise. -/
theorem reduce_agrees_with_reference_algorithm (st : NetworkState)
    (h : st.shops ≠ []) : reduce st = some (specReduce st) :=
  reduce_eq_specReduce h

theorem reduce_agrees_with_reference_algorithm_witness :
    (processLine initNetwork 1 2).shops ≠ [] ∧
      reduce (processLine initNetwork 1 2)
        = some (specReduce (processLine initNetwork 1 2)) :=
  ⟨by decide, reduce_agrees_with_reference_algorithm _ (by decide)⟩

/-- Claim C2 (failing input): inserting the very first edge `5 5`, a
self-loop on a not-yet-registered identifier, allocates TWO distinct shop
objects that both carry identifier 5 (addresses 0 and 1), registers only
the second one, and leaves the registered node with neighbor-sequence
length 1 instead of the 2 required by the claim.  The unregistered object
at address 0 remains referenced from the registered node's neighbor
sequence. -/
theorem fresh_self_loop_breaks_degree_and_uniqueness :
    (processLine initNetwork 5 5).heap.length = 2 ∧
      (heapAt (processLine initNetwork 5 5) 0).identifier = 5 ∧
      (heapAt (processLine initNetwork 5 5) 1).identifier = 5 ∧
      (processLine initNetwork 5 5).shops = [(5, 1)] ∧
      degree (processLine initNetwork 5 5) 1 = 1 := by
  decide

/-- Claim C3: on a non-empty store the returned value is 0 or at least 2,
never 1. -/
theorem reduce_result_zero_or_ge_two (st : NetworkState) (h : st.shops ≠ []) :
    ((reduce st).getD 0 = 0 ∨ 2 ≤ (reduce st).getD 0) ∧ (reduce st).getD 0 ≠ 1 := by
  rw [reduce_eq_specReduce h]
  simp only [Option.getD_some]
  rw [specReduce]
  by_cases hc : (specWinners st).length < 2
  · simp [hc]
  · simp only [if_neg hc]
    omega

theorem reduce_result_zero_or_ge_two_witness :
    (processLine initNetwork 1 2).shops ≠ [] ∧
      (((reduce (processLine initNetwork 1 2)).getD 0 = 0 ∨
          2 ≤ (reduce (processLine initNetwork 1 2)).getD 0) ∧
        (reduce (processLine initNetwork 1 2)).getD 0 ≠ 1) :=
  ⟨by decide, reduce_result_zero_or_ge_two _ (by decide)⟩

/-- Claim C4 (failing input): after the single successful edge insertion
`5 5` on a fresh identifier, `number_of_connections` is 1, not twice the
number of insertions (2): the push to the unregistered duplicate object is
lost for the registered sum. -/
theorem connection_count_after_fresh_self_loop :
    number_of_connections (processLine initNetwork 5 5) = 1 ∧
      number_of_connections (processLine initNetwork 5 5) ≠ 2 * 1 := by
  decide

/-- Claim C5: on a non-empty store `reduce` is total — both `front()` reads
(modelled by the two match-on-empty points inside `reduce`) are on
non-empty containers and a value is returned. -/
theorem reduce_total_on_nonempty_store (st : NetworkState) (h : st.shops ≠ []) :
    (reduce st).isSome = true := by
  rw [reduce_eq_specReduce h]
  rfl

theorem reduce_total_on_nonempty_store_witness :
    (processLine initNetwork 1 2).shops ≠ [] ∧
      (reduce (processLine initNetwork 1 2)).isSome = true :=
  ⟨by decide, reduce_total_on_nonempty_store _ (by decide)⟩

/-- Claim C6: the well-formed input with valid header `2 1` and the single
edge line `1001 1` (first identifier out of range) has every edge line
skipped, creates no node, and still reaches `reduce` on the empty store,
where the `front()` read on the empty node list is reached (modelled by
the `none` result). -/
theorem skipped_lines_reach_reduce_on_empty_store :
    checkHeader 2 1 = true ∧
      processLines initNetwork [(1001, 1)] = initNetwork ∧
      (processLines initNetwork [(1001, 1)]).shops = [] ∧
      runProgram 2 1 [(1001, 1)] = some none := by
  decide

/-- Claim C7: the minimum-bound graph — two distinct nodes joined by one
edge — has both nodes at degree 1 forming the whole core, both with impact
0 (the only neighbor of each is the other core member), and the reduction
result is 2. -/
theorem minimum_bound_graph_reduces_to_two :
    degree (processLine initNetwork 1 2) 0 = 1 ∧
      degree (processLine initNetwork 1 2) 1 = 1 ∧
      specCore (processLine initNetwork 1 2) = [0, 1] ∧
      specImpact (processLine initNetwork 1 2) 0 = 0 ∧
      specImpact (processLine initNetwork 1 2) 1 = 0 ∧
      reduce (processLine initNetwork 1 2) = some 2 ∧
      specReduce (processLine initNetwork 1 2) = 2 := by
  decide

/-- Claim C9: invoking the reduction twice on the same finalized store
yields identical results, and the reduction leaves the store — the node
map and every neighbor sequence — unchanged (the member function writes
only its local vectors). -/
theorem reduce_idempotent_and_pure (st : NetworkState) :
    (reduceS st).2 = st ∧ (reduceS ((reduceS st).2)).1 = (reduceS st).1 :=
  ⟨rfl, rfl⟩

/-- Claim C8: an edge line whose first identifier is outside [1,1000] is
excluded from the graph and processing continues with the state unchanged;
the second identifier is never range-checked, so on every non-skipped line
the `road_to` value — whatever it is — ends up registered in the store. -/
theorem out_of_range_shop_id_skipped_road_to_registered (st : NetworkState)
    (u v : Nat) :
    ((u < 1 ∨ 1000 < u) → processLine st u v = st) ∧
      (1 ≤ u → u ≤ 1000 → shop_at (processLine st u v) v ≠ none) := by
  constructor
  · intro h
    rw [processLine, if_pos h]
  · intro h1 h2
    rw [processLine, if_neg (by omega)]
    cases hu : shop_at st u with
    | some s =>
      cases hv : shop_at st v with
      | some d =>
        simp only [addEdge, hu, hv]
        simp only [shop_at, pushConnection_shops]
        simp only [shop_at] at hv
        rw [hv]
        simp
      | none =>
        simp only [addEdge, hu, hv]
        have hid : (heapAt (pushConnection
            (pushConnection (allocHeap st v) (allocAddr st) s) s (allocAddr st))
            (allocAddr st)).identifier = v := by
          rw [heapAt_pushConnection_identifier, heapAt_pushConnection_identifier,
            heapAt_allocHeap_self]
        simp only [shop_at, register_shop, pushConnection_shops, allocHeap_shops, hid]
        exact mapLookup_mapInsert_isSome v (allocAddr st) st.shops
    | none =>
      simp only [addEdge, hu]
      cases hv : shop_at (allocHeap st u) v with
      | some d =>
        simp only [shop_at, register_shop, pushConnection_shops, allocHeap_shops]
        apply mapLookup_mapInsert_mono
        simp only [shop_at, allocHeap_shops] at hv
        rw [hv]
        simp
      | none =>
        have hid : (heapAt (pushConnection
            (pushConnection (allocHeap (allocHeap st u) v)
              (allocAddr (allocHeap st u)) (allocAddr st))
            (allocAddr st) (allocAddr (allocHeap st u)))
            (allocAddr (allocHeap st u))).identifier = v := by
          rw [heapAt_pushConnection_identifier, heapAt_pushConnection_identifier,
            heapAt_allocHeap_self]
        simp only [shop_at, register_shop, pushConnection_shops, allocHeap_shops, hid]
        apply mapLookup_mapInsert_mono
        exact mapLookup_mapInsert_isSome v (allocAddr (allocHeap st u)) st.shops

theorem out_of_range_shop_id_skipped_road_to_registered_witness :
    ((1001 < 1 ∨ 1000 < 1001) ∧ processLine initNetwork 1001 5 = initNetwork) ∧
      (1 ≤ 1 ∧ 1 ≤ 1000 ∧ shop_at (processLine initNetwork 1 2000) 2000 ≠ none) :=
  ⟨⟨by decide,
      (out_of_range_shop_id_skipped_road_to_registered initNetwork 1001 5).1 (by decide)⟩,
    by decide, by decide,
    (out_of_range_shop_id_skipped_road_to_registered initNetwork 1 2000).2
      (by decide) (by decide)⟩

/-- Claim C10: registering a node whose identifier is already mapped leaves
the store completely unchanged — `std::map::insert` does not overwrite an
existing key, so the previously registered node keeps its slot. -/
theorem register_shop_keeps_existing_node (st : NetworkState) (a b : Nat)
    (hs : sortedKeys st.shops = true)
    (hb : shop_at st (heapAt st a).identifier = some b) :
    register_shop st a = st := by
  rw [shop_at] at hb
  rw [register_shop, mapInsert_of_lookup_some _ a b st.shops hs hb]

theorem register_shop_keeps_existing_node_witness :
    sortedKeys (processLine initNetwork 1 2).shops = true ∧
      shop_at (processLine initNetwork 1 2)
        (heapAt (processLine initNetwork 1 2) 0).identifier = some 0 ∧
      register_shop (processLine initNetwork 1 2) 0 = processLine initNetwork 1 2 :=
  ⟨by decide, by decide,
    register_shop_keeps_existing_node _ 0 0 (by decide) (by decide)⟩

end Thomas
